import Mathlib

/-!
Shallow embedding of the registration + static-validation subsystem of the
`di-rs` dependency-injection container (src/registry/mod.rs), together with
proofs of the specification claims about it.

The Rust `Registry` holds three ordered maps (`maybe_groups`,
`maybe_definitions`, `overriden_definitions`) and a validator pipeline.
`BTreeMap` is embedded as an association list with map semantics: `mfind`
returns the binding of a key, `minsert` replaces an existing binding in
place or adds a new one, `merase` removes all bindings of a key.

Rust object identity (each `DefinitionCandidate::new` allocates a distinct
object, and `finalize` *moves* a displaced candidate into the override log)
is modelled by a ghost `stamp` field on `DefinitionCandidate`, drawn from a
ghost allocation counter `nextStamp` in the registry state.  The stamp has
no computational role in any operation; it only lets theorems speak about
"the same candidate object".
-/

namespace DiRs

/-- Association-list map keyed by strings, standing in for Rust's
`BTreeMap<String, _>`. -/
abbrev Map (α : Type) : Type := List (String × α)

/-- Lookup, mirroring `BTreeMap::get`. -/
def mfind {α : Type} : Map α → String → Option α
  | [], _ => none
  | (k, v) :: rest, key => if k = key then some v else mfind rest key

/-- Key membership, mirroring `BTreeMap::contains_key`. -/
def mcontains {α : Type} (m : Map α) (k : String) : Bool :=
  (mfind m k).isSome

/-- Removal, mirroring `BTreeMap::remove` (the removed value is read with
`mfind` before erasing). -/
def merase {α : Type} : Map α → String → Map α
  | [], _ => []
  | (k, v) :: rest, key =>
      if k = key then merase rest key else (k, v) :: merase rest key

/-- Insertion, mirroring `BTreeMap::insert`: replaces the value bound to an
existing key, otherwise adds a new binding. -/
def minsert {α : Type} : Map α → String → α → Map α
  | [], key, val => [(key, val)]
  | (k, v) :: rest, key, val =>
      if k = key then (key, val) :: rest else (k, v) :: minsert rest key val

/-- Modelled from the spec: the `Aggregate` collection descriptor from the
`metafactory::aggregate` crate is not under src; §6 consumes it as an opaque
aggregate-type descriptor.  An abstract type identifier stands in for it. -/
structure Aggregate where
  typeId : Nat
deriving DecidableEq

/-- Modelled from the spec: the `MetaFactory` capability from the
`metafactory` crate is not under src; §6 specifies it as exposing a
required-argument count and a produced-type descriptor (invocation is never
consulted during registration/validation). -/
structure MetaFactory where
  arity : Nat
  producedTypeId : Nat
deriving DecidableEq

/-- The `new_aggregate` operation of a metafactory: the aggregate descriptor
for its produced type (spec §6, consumed capability). -/
def MetaFactory.newAggregate (f : MetaFactory) : Aggregate :=
  ⟨f.producedTypeId⟩

/-- Modelled from the spec: `registry/candidate.rs` is not under src; §3
gives `GroupCandidate` exactly one field, the element-type descriptor, and
`mod.rs` constructs it as `GroupCandidate::new(type_aggregate)`. -/
structure GroupCandidate where
  aggregate : Aggregate
deriving DecidableEq

/-- Modelled from the spec: `registry/candidate.rs` is not under src; §3
gives `DefinitionCandidate` the factory, the ordered `arg_sources` list and
the optional owning group, and `mod.rs` constructs it as
`DefinitionCandidate::new(value, args, collection_id)`.  The extra `stamp`
field is a ghost serial number modelling Rust object identity (each
construction yields a distinct object); no operation reads it. -/
structure DefinitionCandidate where
  metafactory : MetaFactory
  argSources : List String
  collectionId : Option String
  stamp : Nat
deriving DecidableEq

/-- Modelled from the spec: `registry/error.rs` is not under src; §7 gives
the diagnostic taxonomy `ArityMismatch`, `SilentOverride`,
`UnresolvedDependency` with the payloads each message must include. -/
inductive CompileError where
  | arityMismatch (id : String) (declared required : Nat)
  | silentOverride (id : String) (displacedCount : Nat)
  | unresolvedDependency (ownerId missing : String)
deriving DecidableEq

/-- Modelled from the spec: the `container` module is not under src; §6
specifies the hand-off contract as a map from identifier to opaque factory
entry (populated externally; `compile` passes an empty map).  A `Nat`
stands in for the opaque `Box<Any>` entry. -/
structure Container where
  factoryMap : Map Nat
deriving DecidableEq

/-- `Container::new(factory_map)`. -/
def Container.new (m : Map Nat) : Container :=
  ⟨m⟩

/-- The three data maps of `Registry` (mod.rs lines 23-33), plus the ghost
allocation counter `nextStamp` for candidate identity.  The validator
pipeline is kept separately in `Registry` because validators are functions
over this data. -/
structure RegistryData where
  maybeGroups : Map GroupCandidate
  maybeDefinitions : Map DefinitionCandidate
  overridenDefinitions : Map (List DefinitionCandidate)
  nextStamp : Nat
deriving DecidableEq

/-- A validator (spec §4.3): read-only access to the registry state, zero
or more diagnostics appended to the shared collector.  The Rust trait
object `Box<Validator>` receives `&Registry`; since `validate` is read-only
it is embedded as a function of the registry data. -/
abbrev Validator : Type := RegistryData → List CompileError

/-- The registry: data maps plus the validator pipeline (mod.rs 23-33). -/
structure Registry where
  data : RegistryData
  validators : List Validator

/-- `Registry::define_group_if_not_exists` (mod.rs 78-86): insert a fresh
`GroupCandidate` only when the key is absent. -/
def RegistryData.defineGroupIfNotExists
    (s : RegistryData) (collectionId : String) (typeAggregate : Aggregate) :
    RegistryData :=
  if mcontains s.maybeGroups collectionId then s
  else
    { s with
      maybeGroups :=
        minsert s.maybeGroups collectionId (GroupCandidate.mk typeAggregate) }

/-- `Registry::finalize` (mod.rs 175-193): displace any current definition
for `id` into the override log (appending, oldest first), then install the
new candidate.  The new candidate is stamped with the ghost counter. -/
def RegistryData.finalize
    (s : RegistryData) (collectionId : Option String) (id : String)
    (value : MetaFactory) (args : List String) : RegistryData :=
  let s1 :=
    match mfind s.maybeDefinitions id with
    | some overridenCandidate =>
        { s with
          maybeDefinitions := merase s.maybeDefinitions id,
          overridenDefinitions :=
            match mfind s.overridenDefinitions id with
            | none =>
                minsert s.overridenDefinitions id [overridenCandidate]
            | some entry =>
                minsert s.overridenDefinitions id (entry ++ [overridenCandidate]) }
    | none => s
  let candidate := DefinitionCandidate.mk value args collectionId s1.nextStamp
  { s1 with
    maybeDefinitions := minsert s1.maybeDefinitions id candidate,
    nextStamp := s1.nextStamp + 1 }

/-- Modelled from the spec: `registry/validator/argument_count.rs` is not
under src; §4.3 item 1: for every definition candidate, compare the length
of `arg_sources` with the factory's required arity; a mismatch yields one
diagnostic naming the id and both counts. -/
def argumentCountValidator : Validator := fun s =>
  s.maybeDefinitions.flatMap fun p =>
    if p.2.argSources.length = p.2.metafactory.arity then []
    else [CompileError.arityMismatch p.1 p.2.argSources.length p.2.metafactory.arity]

/-- Modelled from the spec: `registry/validator/overrides.rs` is not under
src; §4.3 item 2: for every identifier present in the override log, exactly
one diagnostic carrying the id and the number of displaced candidates. -/
def noOverridesValidator : Validator := fun s =>
  s.overridenDefinitions.map fun p =>
    CompileError.silentOverride p.1 p.2.length

/-- Modelled from the spec: `registry/validator/dependencies.rs` is not
under src; §4.3 item 3: for every `arg_sources` entry of every definition
candidate, the referenced identifier must exist as a live definition id or
a group id; each unresolved reference yields one diagnostic naming the
owning definition and the missing reference. -/
def dependencyValidator : Validator := fun s =>
  s.maybeDefinitions.flatMap fun p =>
    p.2.argSources.filterMap fun src =>
      if mcontains s.maybeDefinitions src || mcontains s.maybeGroups src then none
      else some (CompileError.unresolvedDependency p.1 src)

/-- The empty registry data (all maps empty, ghost counter zero). -/
def emptyData : RegistryData :=
  ⟨[], [], [], 0⟩

/-- `Registry::push_validator` (mod.rs 51-56): append to the pipeline. -/
def Registry.pushValidator (r : Registry) (v : Validator) : Registry :=
  { r with validators := r.validators ++ [v] }

/-- `Registry::new` (mod.rs 36-49): empty maps, then the three default
validators pushed in the fixed source order. -/
def Registry.new : Registry :=
  (((Registry.mk emptyData []).pushValidator
      argumentCountValidator).pushValidator
      noOverridesValidator).pushValidator
      dependencyValidator

/-- `Registry::compile` (mod.rs 58-72): run every validator in pipeline
order, each appending to the one shared `error_summary`; return a
`Container` over the (externally populated, here empty) factory map exactly
when the summary is empty, otherwise the whole summary. -/
def Registry.compile (r : Registry) : Except (List CompileError) Container :=
  let errorSummary :=
    r.validators.foldl (fun acc v => acc ++ v r.data) []
  if errorSummary.length = 0 then Except.ok (Container.new [])
  else Except.error errorSummary

/-- State-passing transcription of `Registry::compile`: the receiver is a
shared borrow (`&self`), so the registry handed back to the caller is the
one passed in; the body only builds the local `error_summary`. -/
def Registry.compileS (r : Registry) :
    (Except (List CompileError) Container) × Registry :=
  let errorSummary :=
    r.validators.foldl (fun acc v => acc ++ v r.data) []
  (if errorSummary.length = 0 then Except.ok (Container.new [])
   else Except.error errorSummary, r)

/-- The full ordered diagnostic collection `compile` accumulates before
deciding success or failure (mod.rs 59-63). -/
def Registry.allDiagnostics (r : Registry) : List CompileError :=
  r.validators.foldl (fun acc v => acc ++ v r.data) []

/-- `Registry::has_many::<T>` (mod.rs 74-76); the type parameter `T` enters
only through its aggregate descriptor, taken here as an argument. -/
def Registry.hasMany (r : Registry) (collectionId : String) (agg : Aggregate) :
    Registry :=
  { r with data := r.data.defineGroupIfNotExists collectionId agg }

/-- `Registry::insert_one` (mod.rs 113-120). -/
def Registry.insertOne (r : Registry) (id : String) (value : MetaFactory) :
    Registry :=
  { r with data := r.data.finalize none id value [] }

/-- `Registry::insert_with_args_one` (mod.rs 122-131). -/
def Registry.insertWithArgsOne
    (r : Registry) (id : String) (argSources : List String)
    (value : MetaFactory) : Registry :=
  { r with data := r.data.finalize none id value argSources }

/-- `Registry::insert_with_arg_one` (mod.rs 133-142). -/
def Registry.insertWithArgOne
    (r : Registry) (id : String) (argSource : String) (value : MetaFactory) :
    Registry :=
  { r with data := r.data.finalize none id value [argSource] }

/-- `Registry::insert_one_of` (mod.rs 144-151): finalize with the owning
collection id; the group map is not consulted. -/
def Registry.insertOneOf
    (r : Registry) (collectionId id : String) (value : MetaFactory) :
    Registry :=
  { r with data := r.data.finalize (some collectionId) id value [] }

/-- `Registry::insert_with_args_one_of` (mod.rs 153-162). -/
def Registry.insertWithArgsOneOf
    (r : Registry) (collectionId id : String) (argSources : List String)
    (value : MetaFactory) : Registry :=
  { r with data := r.data.finalize (some collectionId) id value argSources }

/-- `Registry::insert_with_arg_one_of` (mod.rs 164-173). -/
def Registry.insertWithArgOneOf
    (r : Registry) (collectionId id : String) (argSource : String)
    (value : MetaFactory) : Registry :=
  { r with data := r.data.finalize (some collectionId) id value [argSource] }

/-- The `OneOf` builder front-end.  `registry/one_of.rs` is not under src;
its accumulated fields are fixed by `OneOf::new(self, collection_id, id,
metafactory)` in mod.rs 95-100, and (modelled from the spec, §4.2) each
"with argument" call appends one identifier and the terminal call performs
exactly one `finalize` with the accumulated sequence.  The exclusive borrow
of the registry is embedded by the builder owning the registry value. -/
structure OneOf where
  registry : Registry
  collectionId : String
  id : String
  metafactory : MetaFactory
  args : List String

/-- `Registry::one_of` (mod.rs 88-101): lazily declare the group from the
factory's produced aggregate, then hand out the builder. -/
def Registry.oneOf
    (r : Registry) (collectionId id : String) (value : MetaFactory) : OneOf :=
  { registry :=
      { r with
        data := r.data.defineGroupIfNotExists collectionId value.newAggregate },
    collectionId := collectionId,
    id := id,
    metafactory := value,
    args := [] }

/-- Modelled from the spec (§4.2): a "with argument" call appends one
identifier to the builder's ordered sequence. -/
def OneOf.withArg (b : OneOf) (argSource : String) : OneOf :=
  { b with args := b.args ++ [argSource] }

/-- Modelled from the spec (§4.2): the builder's terminal call performs
exactly one `finalize` with the accumulated argument sequence, giving the
registry back. -/
def OneOf.insert (b : OneOf) : Registry :=
  { b.registry with
    data := b.registry.data.finalize (some b.collectionId) b.id b.metafactory b.args }

/-- The `One` builder front-end (`registry/one.rs` is not under src;
`One::new(self, id, metafactory)` in mod.rs 106-110 fixes its fields;
behaviour modelled from the spec, §4.2, like `OneOf` but with no owning
group). -/
structure One where
  registry : Registry
  id : String
  metafactory : MetaFactory
  args : List String

/-- `Registry::one` (mod.rs 103-111). -/
def Registry.one (r : Registry) (id : String) (value : MetaFactory) : One :=
  { registry := r, id := id, metafactory := value, args := [] }

/-- Modelled from the spec (§4.2): append one argument identifier. -/
def One.withArg (b : One) (argSource : String) : One :=
  { b with args := b.args ++ [argSource] }

/-- Modelled from the spec (§4.2): terminal call, one `finalize` with no
owning group. -/
def One.insert (b : One) : Registry :=
  { b.registry with
    data := b.registry.data.finalize none b.id b.metafactory b.args }

/-- The two primitive mutations of the registry data: every public
registration operation factors through `define_group_if_not_exists` or
`finalize` (mod.rs 74-193). -/
inductive Op where
  | declareGroup (collectionId : String) (agg : Aggregate)
  | register (collectionId : Option String) (id : String)
      (value : MetaFactory) (args : List String)

/-- Apply one primitive mutation. -/
def applyOp (s : RegistryData) : Op → RegistryData
  | Op.declareGroup cid agg => s.defineGroupIfNotExists cid agg
  | Op.register cid id mf args => s.finalize cid id mf args

/-- Run a sequence of primitive mutations. -/
def runOps (s : RegistryData) (ops : List Op) : RegistryData :=
  ops.foldl applyOp s

/-- Freshness invariant over the ghost stamps: every stamp stored anywhere
is below the allocation counter, override-log entries are nonempty, and no
logged candidate carries the stamp of the live candidate for its id. -/
def FreshInv (s : RegistryData) : Prop :=
  (∀ id c, mfind s.maybeDefinitions id = some c → c.stamp < s.nextStamp) ∧
  (∀ id l, mfind s.overridenDefinitions id = some l →
      l ≠ [] ∧ ∀ c ∈ l, c.stamp < s.nextStamp) ∧
  (∀ id c l, mfind s.maybeDefinitions id = some c →
      mfind s.overridenDefinitions id = some l → ∀ d ∈ l, d.stamp ≠ c.stamp)

/-- Concrete factory for witnesses: arity 0, produced type 0. -/
def mfA : MetaFactory :=
  ⟨0, 0⟩

/-- Concrete factory for witnesses: arity 0, produced type 1. -/
def mfB : MetaFactory :=
  ⟨0, 1⟩

/-- Concrete factory for witnesses: required arity 3. -/
def mfTriple : MetaFactory :=
  ⟨3, 0⟩

/-- Concrete aggregate descriptors for witnesses. -/
def aggA : Aggregate :=
  ⟨0⟩

/-- A second concrete aggregate descriptor. -/
def aggB : Aggregate :=
  ⟨1⟩

/-- Registry data with the single group `g` (descriptor `aggA`). -/
def groupedData : RegistryData :=
  emptyData.defineGroupIfNotExists "g" aggA

/-- A registry holding one definition whose declared argument count (2)
mismatches its factory's required arity (3). -/
def rMismatch : Registry :=
  Registry.new.insertWithArgsOne "x" ["a", "b"] mfTriple

/-- Registering `x` twice: the primitive-operation sequence behind the
override-append scenario. -/
def opsTwice : List Op :=
  [Op.register none "x" mfA [], Op.register none "x" mfB []]

/-! ### Map lemmas -/

theorem mfind_minsert {α : Type} (m : Map α) (k k' : String) (v : α) :
    mfind (minsert m k v) k' = if k = k' then some v else mfind m k' := by
  induction m with
  | nil =>
      by_cases h : k = k' <;> simp [minsert, mfind, h]
  | cons p rest ih =>
      obtain ⟨pk, pv⟩ := p
      by_cases h1 : pk = k
      · subst h1
        by_cases h2 : pk = k' <;> simp [minsert, mfind, h2]
      · by_cases h2 : pk = k'
        · subst h2
          have hkk : ¬ k = pk := fun he => h1 he.symm
          simp [minsert, mfind, h1, hkk]
        · simp [minsert, mfind, h1, h2, ih]

theorem mfind_merase {α : Type} (m : Map α) (k k' : String) :
    mfind (merase m k) k' = if k = k' then none else mfind m k' := by
  induction m with
  | nil =>
      by_cases h : k = k' <;> simp [merase, mfind, h]
  | cons p rest ih =>
      obtain ⟨pk, pv⟩ := p
      by_cases h1 : pk = k
      · subst h1
        by_cases h2 : pk = k'
        · subst h2
          simp [merase, mfind, ih]
        · simp [merase, mfind, h2, ih]
      · by_cases h2 : pk = k'
        · subst h2
          have hkk : ¬ k = pk := fun he => h1 he.symm
          simp [merase, mfind, h1, hkk]
        · simp [merase, mfind, h1, h2, ih]

theorem mcontains_minsert_self {α : Type} (m : Map α) (k : String) (v : α) :
    mcontains (minsert m k v) k = true := by
  simp [mcontains, mfind_minsert]

theorem mcontains_eq_false_iff {α : Type} (m : Map α) (k : String) :
    mcontains m k = false ↔ mfind m k = none := by
  cases h : mfind m k <;> simp [mcontains, h]

/-! ### Frame and unfolding lemmas for the two primitive mutations -/

theorem defineGroup_maybeDefinitions
    (s : RegistryData) (cid : String) (agg : Aggregate) :
    (s.defineGroupIfNotExists cid agg).maybeDefinitions = s.maybeDefinitions := by
  unfold RegistryData.defineGroupIfNotExists
  split <;> rfl

theorem defineGroup_overridenDefinitions
    (s : RegistryData) (cid : String) (agg : Aggregate) :
    (s.defineGroupIfNotExists cid agg).overridenDefinitions =
      s.overridenDefinitions := by
  unfold RegistryData.defineGroupIfNotExists
  split <;> rfl

theorem defineGroup_nextStamp
    (s : RegistryData) (cid : String) (agg : Aggregate) :
    (s.defineGroupIfNotExists cid agg).nextStamp = s.nextStamp := by
  unfold RegistryData.defineGroupIfNotExists
  split <;> rfl

theorem defineGroup_noop
    (s : RegistryData) (cid : String) (agg : Aggregate)
    (h : mcontains s.maybeGroups cid = true) :
    s.defineGroupIfNotExists cid agg = s := by
  simp [RegistryData.defineGroupIfNotExists, h]

theorem defineGroup_absent
    (s : RegistryData) (cid : String) (agg : Aggregate)
    (h : mfind s.maybeGroups cid = none) :
    (s.defineGroupIfNotExists cid agg).maybeGroups =
      minsert s.maybeGroups cid (GroupCandidate.mk agg) := by
  have hc : mcontains s.maybeGroups cid = false :=
    (mcontains_eq_false_iff s.maybeGroups cid).mpr h
  simp [RegistryData.defineGroupIfNotExists, hc]

theorem defineGroup_find_isSome
    (s : RegistryData) (cid : String) (agg : Aggregate) :
    (mfind (s.defineGroupIfNotExists cid agg).maybeGroups cid).isSome := by
  by_cases h : mcontains s.maybeGroups cid
  · rw [defineGroup_noop s cid agg h]
    simpa [mcontains] using h
  · have hb : mcontains s.maybeGroups cid = false := by simpa using h
    have hn : mfind s.maybeGroups cid = none :=
      (mcontains_eq_false_iff s.maybeGroups cid).mp hb
    rw [defineGroup_absent s cid agg hn]
    simp [mfind_minsert]

theorem finalize_maybeGroups
    (s : RegistryData) (cid : Option String) (id : String)
    (mf : MetaFactory) (args : List String) :
    (s.finalize cid id mf args).maybeGroups = s.maybeGroups := by
  cases h : mfind s.maybeDefinitions id <;>
    cases h2 : mfind s.overridenDefinitions id <;>
      simp [RegistryData.finalize, h, h2]

theorem finalize_nextStamp
    (s : RegistryData) (cid : Option String) (id : String)
    (mf : MetaFactory) (args : List String) :
    (s.finalize cid id mf args).nextStamp = s.nextStamp + 1 := by
  cases h : mfind s.maybeDefinitions id <;>
    cases h2 : mfind s.overridenDefinitions id <;>
      simp [RegistryData.finalize, h, h2]

theorem finalize_find_self
    (s : RegistryData) (cid : Option String) (id : String)
    (mf : MetaFactory) (args : List String) :
    mfind (s.finalize cid id mf args).maybeDefinitions id =
      some (DefinitionCandidate.mk mf args cid s.nextStamp) := by
  cases h : mfind s.maybeDefinitions id <;>
    cases h2 : mfind s.overridenDefinitions id <;>
      simp [RegistryData.finalize, h, h2, mfind_minsert]

theorem finalize_find_other
    (s : RegistryData) (cid : Option String) (id id' : String)
    (mf : MetaFactory) (args : List String) (hne : id ≠ id') :
    mfind (s.finalize cid id mf args).maybeDefinitions id' =
      mfind s.maybeDefinitions id' := by
  cases h : mfind s.maybeDefinitions id <;>
    cases h2 : mfind s.overridenDefinitions id <;>
      simp [RegistryData.finalize, h, h2, mfind_minsert, mfind_merase, hne]

theorem finalize_log_self
    (s : RegistryData) (cid : Option String) (id : String)
    (mf : MetaFactory) (args : List String) (c : DefinitionCandidate)
    (h : mfind s.maybeDefinitions id = some c) :
    mfind (s.finalize cid id mf args).overridenDefinitions id =
      some ((mfind s.overridenDefinitions id).getD [] ++ [c]) := by
  cases h2 : mfind s.overridenDefinitions id <;>
    simp [RegistryData.finalize, h, h2, mfind_minsert]

theorem finalize_log_self_none
    (s : RegistryData) (cid : Option String) (id : String)
    (mf : MetaFactory) (args : List String)
    (h : mfind s.maybeDefinitions id = none) :
    (s.finalize cid id mf args).overridenDefinitions =
      s.overridenDefinitions := by
  simp [RegistryData.finalize, h]

theorem finalize_log_other
    (s : RegistryData) (cid : Option String) (id id' : String)
    (mf : MetaFactory) (args : List String) (hne : id ≠ id') :
    mfind (s.finalize cid id mf args).overridenDefinitions id' =
      mfind s.overridenDefinitions id' := by
  cases h : mfind s.maybeDefinitions id <;>
    cases h2 : mfind s.overridenDefinitions id <;>
      simp [RegistryData.finalize, h, h2, mfind_minsert, hne]

/-- Accumulator form of the diagnostic loop of `compile`: folding append
over the pipeline concatenates the validators' outputs in pipeline order. -/
theorem foldl_append_eq_join (d : RegistryData) (vs : List Validator) :
    ∀ acc : List CompileError,
      vs.foldl (fun a v => a ++ v d) acc = acc ++ (vs.map fun v => v d).flatten := by
  induction vs with
  | nil => intro acc; simp
  | cons v rest ih => intro acc; simp [ih, List.append_assoc]

/-! ### Freshness invariant preservation -/

theorem freshInv_empty : FreshInv emptyData := by
  refine ⟨?_, ?_, ?_⟩ <;> intro id <;> simp [emptyData, mfind]

theorem freshInv_defineGroup
    (s : RegistryData) (cid : String) (agg : Aggregate) (h : FreshInv s) :
    FreshInv (s.defineGroupIfNotExists cid agg) := by
  unfold FreshInv at h ⊢
  rw [defineGroup_maybeDefinitions, defineGroup_overridenDefinitions,
    defineGroup_nextStamp]
  exact h

theorem freshInv_finalize
    (s : RegistryData) (cid : Option String) (id : String)
    (mf : MetaFactory) (args : List String) (h : FreshInv s) :
    FreshInv (s.finalize cid id mf args) := by
  obtain ⟨h1, h2, h3⟩ := h
  have hstamp := finalize_nextStamp s cid id mf args
  have hlogBound :
      ∀ l, mfind (s.finalize cid id mf args).overridenDefinitions id = some l →
        l ≠ [] ∧ ∀ c ∈ l, c.stamp < s.nextStamp := by
    intro l hl
    cases h0 : mfind s.maybeDefinitions id with
    | none =>
        rw [finalize_log_self_none s cid id mf args h0] at hl
        exact h2 id l hl
    | some c0 =>
        rw [finalize_log_self s cid id mf args c0 h0] at hl
        cases hl2 : mfind s.overridenDefinitions id with
        | none =>
            rw [hl2] at hl
            simp only [Option.getD_none, List.nil_append, Option.some.injEq] at hl
            subst hl
            refine ⟨by simp, ?_⟩
            intro c hc
            simp only [List.mem_singleton] at hc
            rw [hc]
            exact h1 id c0 h0
        | some l0 =>
            rw [hl2] at hl
            simp only [Option.getD_some, Option.some.injEq] at hl
            subst hl
            refine ⟨by simp, ?_⟩
            intro c hc
            rcases List.mem_append.mp hc with hcl | hcr
            · exact (h2 id l0 hl2).2 c hcl
            · simp only [List.mem_singleton] at hcr
              rw [hcr]
              exact h1 id c0 h0
  refine ⟨?_, ?_, ?_⟩
  · intro id' c hc
    rw [hstamp]
    by_cases hid : id = id'
    · subst hid
      rw [finalize_find_self s cid id mf args] at hc
      cases hc
      exact Nat.lt_succ_self s.nextStamp
    · rw [finalize_find_other s cid id id' mf args hid] at hc
      exact Nat.lt_succ_of_lt (h1 id' c hc)
  · intro id' l hl
    rw [hstamp]
    by_cases hid : id = id'
    · subst hid
      obtain ⟨hne, hb⟩ := hlogBound l hl
      exact ⟨hne, fun c hc => Nat.lt_succ_of_lt (hb c hc)⟩
    · rw [finalize_log_other s cid id id' mf args hid] at hl
      obtain ⟨hne, hb⟩ := h2 id' l hl
      exact ⟨hne, fun c hc => Nat.lt_succ_of_lt (hb c hc)⟩
  · intro id' c l hc hl
    by_cases hid : id = id'
    · subst hid
      rw [finalize_find_self s cid id mf args] at hc
      cases hc
      intro d hd
      exact Nat.ne_of_lt ((hlogBound l hl).2 d hd)
    · rw [finalize_find_other s cid id id' mf args hid] at hc
      rw [finalize_log_other s cid id id' mf args hid] at hl
      exact h3 id' c l hc hl

theorem freshInv_runOps (ops : List Op) :
    ∀ s : RegistryData, FreshInv s → FreshInv (runOps s ops) := by
  induction ops with
  | nil => intro s h; exact h
  | cons op rest ih =>
      intro s h
      show FreshInv (runOps (applyOp s op) rest)
      apply ih
      cases op with
      | declareGroup cid agg => exact freshInv_defineGroup s cid agg h
      | register cid id mf args => exact freshInv_finalize s cid id mf args h

/-! ### Claim theorems -/

/-- C1: compile is all-or-nothing: for every registry state it returns a
`Container` exactly when running every validator produced zero
diagnostics, and otherwise returns the entire ordered diagnostic
collection as a single failure result; it never returns a partial
result. -/
theorem compile_all_or_nothing (r : Registry) :
    ((∃ c, r.compile = Except.ok c) ↔ r.allDiagnostics = []) ∧
    (r.allDiagnostics ≠ [] → r.compile = Except.error r.allDiagnostics) := by
  have hc : r.compile =
      if r.allDiagnostics.length = 0 then Except.ok (Container.new [])
      else Except.error r.allDiagnostics := rfl
  by_cases h : r.allDiagnostics = []
  · rw [hc]
    simp [h]
  · have hlen : ¬ r.allDiagnostics.length = 0 := fun hl =>
      h (List.length_eq_zero.mp hl)
    rw [hc]
    simp [h, hlen]

/-- Witness for C1 at a registry holding one arity-mismatched
definition. -/
theorem compile_all_or_nothing_witness :
    rMismatch.allDiagnostics ≠ [] ∧
    rMismatch.compile = Except.error rMismatch.allDiagnostics :=
  ⟨by decide, (compile_all_or_nothing rMismatch).2 (by decide)⟩

/-- C2: re-registering an existing id appends the displaced prior
candidate to that id's override log (oldest first) before installing the
new candidate, stamped fresh, as the live definition; this is the shared
`finalize` path behind every insert operation. -/
theorem finalize_override_append (s : RegistryData) (cid : Option String)
    (id : String) (mf : MetaFactory) (args : List String)
    (c : DefinitionCandidate) (h : mfind s.maybeDefinitions id = some c) :
    mfind (s.finalize cid id mf args).maybeDefinitions id =
      some (DefinitionCandidate.mk mf args cid s.nextStamp) ∧
    mfind (s.finalize cid id mf args).overridenDefinitions id =
      some ((mfind s.overridenDefinitions id).getD [] ++ [c]) :=
  ⟨finalize_find_self s cid id mf args, finalize_log_self s cid id mf args c h⟩

/-- Witness for C2: registering `x` with `mfA` then `mfB` leaves `mfB`'s
candidate live and the override log holding exactly `mfA`'s candidate. -/
theorem finalize_override_append_witness :
    mfind ((emptyData.finalize none "x" mfA []).finalize
        none "x" mfB []).maybeDefinitions "x" =
      some (DefinitionCandidate.mk mfB [] none 1) ∧
    mfind ((emptyData.finalize none "x" mfA []).finalize
        none "x" mfB []).overridenDefinitions "x" =
      some [DefinitionCandidate.mk mfA [] none 0] := by
  have h := finalize_override_append (emptyData.finalize none "x" mfA [])
    none "x" mfB [] (DefinitionCandidate.mk mfA [] none 0) (by decide)
  exact ⟨h.1, h.2⟩

/-- C3 counterexample: the claim extends lazy group creation to the direct
insertion operations, but `insert_one_of` on a fresh registry installs a
definition with `owning_group = "plugins"` while the group map stays
empty — no `GroupCandidate` is created. -/
theorem group_inference_counterexample :
    (Registry.new.insertOneOf "plugins" "p1" mfA).data.maybeGroups = [] ∧
    mfind (Registry.new.insertOneOf "plugins" "p1" mfA).data.maybeDefinitions
        "p1" =
      some (DefinitionCandidate.mk mfA [] (some "plugins") 0) := by
  exact ⟨rfl, by decide⟩

/-- C3 (amended): for the builder entry point `one_of`, an unseen group id
gets a `GroupCandidate` inferred from the factory's produced aggregate and
the installed candidate carries `owning_group = group_id`; a later
`one_of` with the same group id leaves the group map unchanged; the direct
insertion operation `insert_one_of` stamps `owning_group` but never
touches the group map. -/
theorem one_of_group_inference (r : Registry) (cid id : String)
    (mf : MetaFactory) (h : mfind r.data.maybeGroups cid = none) :
    mfind ((r.oneOf cid id mf).insert).data.maybeGroups cid =
      some (GroupCandidate.mk mf.newAggregate) ∧
    mfind ((r.oneOf cid id mf).insert).data.maybeDefinitions id =
      some (DefinitionCandidate.mk mf [] (some cid) r.data.nextStamp) ∧
    (∀ id2 mf2,
      (((r.oneOf cid id mf).insert).oneOf cid id2 mf2).registry.data.maybeGroups =
        ((r.oneOf cid id mf).insert).data.maybeGroups) ∧
    (∀ r2 : Registry, ∀ cid2 id2 mf2,
      (Registry.insertOneOf r2 cid2 id2 mf2).data.maybeGroups =
          r2.data.maybeGroups ∧
      mfind (Registry.insertOneOf r2 cid2 id2 mf2).data.maybeDefinitions id2 =
        some (DefinitionCandidate.mk mf2 [] (some cid2) r2.data.nextStamp)) := by
  have hins : ((r.oneOf cid id mf).insert).data =
      (r.data.defineGroupIfNotExists cid mf.newAggregate).finalize
        (some cid) id mf [] := rfl
  have hgr : ((r.oneOf cid id mf).insert).data.maybeGroups =
      minsert r.data.maybeGroups cid (GroupCandidate.mk mf.newAggregate) := by
    rw [hins, finalize_maybeGroups, defineGroup_absent r.data cid mf.newAggregate h]
  refine ⟨?_, ?_, ?_, ?_⟩
  · rw [hgr, mfind_minsert]
    simp
  · rw [hins, finalize_find_self, defineGroup_nextStamp]
  · intro id2 mf2
    have hsome : (mfind ((r.oneOf cid id mf).insert).data.maybeGroups cid).isSome
        = true := by
      rw [hgr, mfind_minsert]
      simp
    show (((r.oneOf cid id mf).insert).data.defineGroupIfNotExists cid
        mf2.newAggregate).maybeGroups = _
    rw [defineGroup_noop _ cid mf2.newAggregate hsome]
  · intro r2 cid2 id2 mf2
    exact ⟨finalize_maybeGroups r2.data (some cid2) id2 mf2 [],
      finalize_find_self r2.data (some cid2) id2 mf2 []⟩

/-- Witness for C3 (amended) at a fresh registry and group `plugins`. -/
theorem one_of_group_inference_witness :
    mfind ((Registry.new.oneOf "plugins" "p1" mfA).insert).data.maybeGroups
        "plugins" =
      some (GroupCandidate.mk mfA.newAggregate) ∧
    mfind ((Registry.new.oneOf "plugins" "p1" mfA).insert).data.maybeDefinitions
        "p1" =
      some (DefinitionCandidate.mk mfA [] (some "plugins") 0) :=
  ⟨(one_of_group_inference Registry.new "plugins" "p1" mfA (by decide)).1,
   (one_of_group_inference Registry.new "plugins" "p1" mfA (by decide)).2.1⟩

/-- C4: in every registry state reachable by a sequence of registration
operations from the empty state, every identifier present in the override
log has at least one displaced predecessor stored there, and the current
candidate for an identifier lives only in the live definition map — it is
never duplicated into the override log. -/
theorem override_log_invariant (ops : List Op) :
    (∀ id l, mfind (runOps emptyData ops).overridenDefinitions id = some l →
      l ≠ []) ∧
    (∀ id c l, mfind (runOps emptyData ops).maybeDefinitions id = some c →
      mfind (runOps emptyData ops).overridenDefinitions id = some l →
      c ∉ l) := by
  obtain ⟨h1, h2, h3⟩ := freshInv_runOps ops emptyData freshInv_empty
  refine ⟨fun id l hl => (h2 id l hl).1, ?_⟩
  intro id c l hc hl hmem
  exact h3 id c l hc hl c hmem rfl

/-- Witness for C4 after registering `x` twice: the live candidate is not
among the logged one. -/
theorem override_log_invariant_witness :
    DefinitionCandidate.mk mfB [] none 1 ∉
      [DefinitionCandidate.mk mfA [] none 0] :=
  (override_log_invariant opsTwice).2 "x" (DefinitionCandidate.mk mfB [] none 1)
    [DefinitionCandidate.mk mfA [] none 0] (by decide) (by decide)

/-- C5: a fresh registry's pipeline is exactly the three default
validators in the fixed order argument-count, no-silent-overrides,
dependency-existence; `push_validator` appends after the existing ones;
and the diagnostics `compile` accumulates are the validators' outputs
concatenated in pipeline order into one shared ordered collector. -/
theorem default_pipeline (r : Registry) (v : Validator) :
    Registry.new.validators =
      [argumentCountValidator, noOverridesValidator, dependencyValidator] ∧
    (r.pushValidator v).validators = r.validators ++ [v] ∧
    r.allDiagnostics = (r.validators.map fun f => f r.data).flatten := by
  refine ⟨rfl, rfl, ?_⟩
  simpa using foldl_append_eq_join r.data r.validators []

/-- C6: group declaration is idempotent and a `GroupCandidate` is never
replaced: declaring a known group id is a no-op, declaring twice equals
declaring once, and a group's element descriptor is the one from its
first declaration. -/
theorem declare_group_idempotent (s : RegistryData) (cid : String)
    (agg agg2 : Aggregate) :
    (mcontains s.maybeGroups cid = true →
      s.defineGroupIfNotExists cid agg = s) ∧
    (s.defineGroupIfNotExists cid agg).defineGroupIfNotExists cid agg2 =
      s.defineGroupIfNotExists cid agg ∧
    (mfind s.maybeGroups cid = none →
      mfind (s.defineGroupIfNotExists cid agg).maybeGroups cid =
        some (GroupCandidate.mk agg)) := by
  refine ⟨defineGroup_noop s cid agg, ?_, ?_⟩
  · exact defineGroup_noop _ cid agg2 (defineGroup_find_isSome s cid agg)
  · intro h
    rw [defineGroup_absent s cid agg h, mfind_minsert]
    simp

/-- Witness for C6: re-declaring `g` with a different descriptor is a
no-op, and a first declaration installs its descriptor. -/
theorem declare_group_idempotent_witness :
    groupedData.defineGroupIfNotExists "g" aggB = groupedData ∧
    mfind (emptyData.defineGroupIfNotExists "g" aggA).maybeGroups "g" =
      some (GroupCandidate.mk aggA) :=
  ⟨(declare_group_idempotent groupedData "g" aggB aggB).1 (by decide),
   (declare_group_idempotent emptyData "g" aggA aggB).2.2 (by decide)⟩

/-- C7: compile is deterministic: compiling the same fully-registered
registry twice with no mutation in between — the second call receives the
state handed back by the first — yields identical results, in particular
identical diagnostic sequences. -/
theorem compile_deterministic (r : Registry) :
    (Registry.compileS (Registry.compileS r).2).1 = (Registry.compileS r).1 ∧
    (Registry.compileS r).1 = r.compile :=
  ⟨rfl, rfl⟩

/-- C8: compile performs no mutation: the registry handed back by the
state-passing transcription of `compile` (whose receiver is a shared
borrow) has the group map, live definition map, override log and validator
pipeline exactly as before the call. -/
theorem compile_no_mutation (r : Registry) :
    (Registry.compileS r).2.data.maybeGroups = r.data.maybeGroups ∧
    (Registry.compileS r).2.data.maybeDefinitions = r.data.maybeDefinitions ∧
    (Registry.compileS r).2.data.overridenDefinitions =
      r.data.overridenDefinitions ∧
    (Registry.compileS r).2.validators = r.validators :=
  ⟨rfl, rfl, rfl, rfl⟩

/-- C9: the direct insertion operations `insert_one_of`,
`insert_with_args_one_of` and `insert_with_arg_one_of` only call
`finalize` and never touch the group candidate map, so the installed
candidate can carry an `owning_group` for which no `GroupCandidate`
exists. -/
theorem insert_one_of_groups_frame (r : Registry) (cid id arg : String)
    (args : List String) (mf : MetaFactory) :
    (r.insertOneOf cid id mf).data = r.data.finalize (some cid) id mf [] ∧
    (r.insertWithArgsOneOf cid id args mf).data =
      r.data.finalize (some cid) id mf args ∧
    (r.insertWithArgOneOf cid id arg mf).data =
      r.data.finalize (some cid) id mf [arg] ∧
    (r.insertOneOf cid id mf).data.maybeGroups = r.data.maybeGroups ∧
    (r.insertWithArgsOneOf cid id args mf).data.maybeGroups =
      r.data.maybeGroups ∧
    (r.insertWithArgOneOf cid id arg mf).data.maybeGroups =
      r.data.maybeGroups ∧
    mfind (r.insertOneOf cid id mf).data.maybeDefinitions id =
      some (DefinitionCandidate.mk mf [] (some cid) r.data.nextStamp) ∧
    (mfind r.data.maybeGroups cid = none →
      mfind (r.insertOneOf cid id mf).data.maybeGroups cid = none) := by
  refine ⟨rfl, rfl, rfl,
    finalize_maybeGroups r.data (some cid) id mf [],
    finalize_maybeGroups r.data (some cid) id mf args,
    finalize_maybeGroups r.data (some cid) id mf [arg],
    finalize_find_self r.data (some cid) id mf [], ?_⟩
  intro h
  show mfind (r.data.finalize (some cid) id mf []).maybeGroups cid = none
  rw [finalize_maybeGroups]
  exact h

/-- Witness for C9: after `insert_one_of` on a fresh registry the
candidate owns group `plugins` yet no such group exists. -/
theorem insert_one_of_groups_frame_witness :
    mfind (Registry.new.insertOneOf "plugins" "p1" mfB).data.maybeDefinitions
        "p1" =
      some (DefinitionCandidate.mk mfB [] (some "plugins") 0) ∧
    mfind (Registry.new.insertOneOf "plugins" "p1" mfB).data.maybeGroups
        "plugins" = none :=
  ⟨(insert_one_of_groups_frame Registry.new "plugins" "p1" "a" [] mfB).2.2.2.2.2.2.1,
   (insert_one_of_groups_frame Registry.new "plugins" "p1" "a" [] mfB).2.2.2.2.2.2.2
     (by decide)⟩

/-- C10: the definition and group namespaces never interfere: `finalize`
leaves the group map unchanged, group declaration leaves the definition
map and override log unchanged, and one identifier string may
simultaneously name a definition and a group. -/
theorem namespace_independence (s : RegistryData) (cid : Option String)
    (gid id : String) (mf : MetaFactory) (args : List String)
    (agg : Aggregate) :
    (s.finalize cid id mf args).maybeGroups = s.maybeGroups ∧
    (s.defineGroupIfNotExists gid agg).maybeDefinitions =
      s.maybeDefinitions ∧
    (s.defineGroupIfNotExists gid agg).overridenDefinitions =
      s.overridenDefinitions ∧
    (mfind ((s.defineGroupIfNotExists id agg).finalize
        cid id mf args).maybeGroups id).isSome = true ∧
    (mfind ((s.defineGroupIfNotExists id agg).finalize
        cid id mf args).maybeDefinitions id).isSome = true := by
  refine ⟨finalize_maybeGroups s cid id mf args,
    defineGroup_maybeDefinitions s gid agg,
    defineGroup_overridenDefinitions s gid agg, ?_, ?_⟩
  · rw [finalize_maybeGroups]
    exact defineGroup_find_isSome s id agg
  · rw [finalize_find_self]
    rfl

end DiRs
